import Mathlib

/-!
A shallow embedding of the FisheyeToEquirectangular repository: the
projection-map construction and blending of `fisheye.py`
(`FisheyeToEquirectangular.__init__`, `unwarp_single`, `unwarp_pair`) and the
dual-stream frame loop of `unwarp.py` (`main`, lines 150-223).

Modelling conventions:
* numpy float arrays are modelled exactly: over `ℚ` for the blending
  arithmetic (which only uses field operations) and over `ℝ` for the
  projection-map trigonometry.
* A warped frame is manipulated by `unwarp_pair` only along its column axis;
  the row axis and the 3 colour channels are carried through untouched (the
  weight arrays have shape `(1, 2b, 3)` and broadcast trivially over rows and
  channels).  One row of a frame is therefore modelled as a column count
  together with a value function, and numpy broadcasting along the column
  axis - including its failure, a `ValueError` - is modelled explicitly.
* Byte streams read from the decode subprocesses are lists of naturals; a
  `read(n)` on a pipe returns `take n` of the remaining stream (short only at
  end of stream), exactly the semantics of a blocking buffered read.
-/

/-- One row of a numpy array along the column axis: the number of columns and
the value stored in each column. -/
structure NpRow where
  width : ℕ
  val : ℕ → ℚ

/-- Python slice-endpoint resolution: a negative endpoint counts from the end
of the axis (clamped below at 0), a non-negative endpoint is clamped above by
the length.  `-0` is `0`, so a literal `-b*2` endpoint with `b = 0` resolves
to `0`, not to the length - exactly as in Python. -/
def pyIdx (len : ℕ) (i : ℤ) : ℕ :=
  if i < 0 then len - i.natAbs else min len i.toNat

/-- `a[:, lo:hi]` on the column axis of a numpy array. -/
def npSlice (a : NpRow) (lo hi : ℤ) : NpRow :=
  ⟨pyIdx a.width hi - pyIdx a.width lo, fun c => a.val (pyIdx a.width lo + c)⟩

/-- Elementwise product of two rows with numpy broadcasting along the column
axis; `none` models the `ValueError` numpy raises when the widths are
distinct and neither is 1. -/
def npMul (a b : NpRow) : Option NpRow :=
  if a.width = b.width then some ⟨a.width, fun c => a.val c * b.val c⟩
  else if b.width = 1 then some ⟨a.width, fun c => a.val c * b.val 0⟩
  else if a.width = 1 then some ⟨b.width, fun c => a.val 0 * b.val c⟩
  else none

/-- Elementwise sum of two rows with numpy broadcasting along the column
axis, like `npMul`. -/
def npAdd (a b : NpRow) : Option NpRow :=
  if a.width = b.width then some ⟨a.width, fun c => a.val c + b.val c⟩
  else if b.width = 1 then some ⟨a.width, fun c => a.val c + b.val 0⟩
  else if a.width = 1 then some ⟨b.width, fun c => a.val 0 + b.val c⟩
  else none

/-- `np.hstack`: concatenation along the column axis. -/
def npHstack (a b : NpRow) : NpRow :=
  ⟨a.width + b.width, fun c => if c < a.width then a.val c else b.val (c - a.width)⟩

/-- `np.linspace lo hi num` as a row: entry `i` is
`lo + i * (hi - lo) / (num - 1)` (for `num = 1` the division by zero never
contributes since entry 0 is `lo`, matching numpy's single-sample case). -/
def npLinspace (lo hi : ℚ) (num : ℕ) : NpRow :=
  ⟨num, fun i => lo + i * (hi - lo) / ((num : ℚ) - 1)⟩

/-- The blending half of `FisheyeToEquirectangular.unwarp_pair`
(`fisheye.py` lines 50-73), applied to one row `ul` of the left and `ur` of
the right warped frame.  Every slice, weight vector and arithmetic step is
transcribed from the source; `none` models a numpy broadcasting
`ValueError`. -/
def unwarp_pair_rows (blending : ℕ) (ul ur : NpRow) : Option NpRow :=
  let b := blending
  let la := npSlice ul (0 : ℤ) (b : ℤ)
  let lb := npSlice ul (b : ℤ) ((b * 2 : ℕ) : ℤ)
  let lc := npSlice ul ((b * 2 : ℕ) : ℤ) (-((b * 2 : ℕ) : ℤ))
  let ld := npSlice ul (-((b * 2 : ℕ) : ℤ)) (ul.width : ℤ)
  let ra := npSlice ur (0 : ℤ) ((b * 2 : ℕ) : ℤ)
  let rb := npSlice ur ((b * 2 : ℕ) : ℤ) (-((b * 2 : ℕ) : ℤ))
  let rc := npSlice ur (-((b * 2 : ℕ) : ℤ)) (-(b : ℤ))
  let rd := npSlice ur (-(b : ℤ)) (ur.width : ℤ)
  let fd := npLinspace 1 0 (b * 2)
  let fu := npLinspace 0 1 (b * 2)
  do
    let t1 ← npMul lb (npSlice fu (b : ℤ) (fu.width : ℤ))
    let t2 ← npMul rd (npSlice fd (b : ℤ) (fd.width : ℤ))
    let s1 ← npAdd t1 t2
    let t3 ← npMul ld fd
    let t4 ← npMul ra fu
    let s3 ← npAdd t3 t4
    let t5 ← npMul rc (npSlice fd (0 : ℤ) (b : ℤ))
    let t6 ← npMul la (npSlice fu (0 : ℤ) (b : ℤ))
    let s5 ← npAdd t5 t6
    return npHstack (npHstack (npHstack (npHstack s1 lc) s3) rb) s5

/-- One blocking `read(n)` from a byte-stream pipe (`process.stdout.read`):
returns the bytes obtained and the rest of the stream.  The read is short
only when the stream is exhausted. -/
def readChunk (src : List ℕ) (n : ℕ) : List ℕ × List ℕ :=
  (src.take n, src.drop n)

/-- The skip loop of `unwarp.py` (lines 154-164): `k` raw reads of one frame
each, discarding the bytes. -/
def skipFramesSrc (bc : ℕ) : ℕ → List ℕ → List ℕ
  | 0, src => src
  | k + 1, src => skipFramesSrc bc k (src.drop bc)

/-- The main frame loop of `unwarp.py` (lines 169-207): up to `fuel` times,
read one frame-sized chunk from each source; an empty read on either side
ends the loop cleanly; a non-empty read shorter than one frame makes
`np.frombuffer(...).reshape(...)` raise, modelled by `.error "reshape"`;
otherwise the frame pair is composited and written to the sink, modelled by
appending the pair to the output list. -/
def streamLoop (bc : ℕ) : ℕ → List ℕ → List ℕ → Except String (List (List ℕ × List ℕ))
  | 0, _, _ => .ok []
  | fuel + 1, l, r =>
    let lb := (readChunk l bc).1
    let rb := (readChunk r bc).1
    if lb.isEmpty then .ok []
    else if rb.isEmpty then .ok []
    else if lb.length ≠ bc then .error "reshape"
    else if rb.length ≠ bc then .error "reshape"
    else
      match streamLoop bc fuel (readChunk l bc).2 (readChunk r bc).2 with
      | .ok rest => .ok ((lb, rb) :: rest)
      | .error e => .error e

/-- The whole dual-stream pipeline of `unwarp.py` `main` (lines 150-207):
skip `skipL` frames of the left and `skipR` frames of the right source, then
run the frame loop for at most `nFrames` iterations. -/
def pipelineRun (bc skipL skipR nFrames : ℕ) (l r : List ℕ) :
    Except String (List (List ℕ × List ℕ)) :=
  streamLoop bc nFrames (skipFramesSrc bc skipL l) (skipFramesSrc bc skipR r)

/-- A 2-D numpy array (one colour channel of an image, or one coordinate grid
of the projection map): height, width, and the value at each cell. -/
structure NpImage (α : Type) where
  height : ℕ
  width : ℕ
  val : ℕ → ℕ → α

/-- The transcendental operations used by `FisheyeToEquirectangular.__init__`
(`np.pi`, `np.cos`, `np.sin`, `np.arctan2`, `np.sqrt`), abstracted so that
the map construction stays a computable function; the theorems instantiate
them with the real functions (`realTrig`). -/
structure TrigOps (α : Type) where
  pi : α
  cos : α → α
  sin : α → α
  atan2 : α → α → α
  sqrt : α → α

/-- The real instantiation of the transcendental operations.
`np.arctan2 y x` is the argument of the complex number `x + y*I`. -/
noncomputable def realTrig : TrigOps ℝ :=
  ⟨Real.pi, Real.cos, Real.sin, fun y x => Complex.arg ⟨x, y⟩, Real.sqrt⟩

/-- Entry `i` of `np.linspace lo hi num`. -/
def linspaceAt {α : Type} [Field α] (lo hi : α) (num : ℕ) (i : ℕ) : α :=
  lo + i * (hi - lo) / ((num : α) - 1)

/-- `x_samples` of `FisheyeToEquirectangular.__init__` (`fisheye.py` line 8):
`np.linspace(0 - blending/n, 1 + blending/n, n + blending*2)`. -/
def xSamples {α : Type} [Field α] (n blending : ℕ) (j : ℕ) : α :=
  linspaceAt (0 - (blending : α) / (n : α)) (1 + (blending : α) / (n : α))
    (n + blending * 2) j

/-- `y_samples` of `FisheyeToEquirectangular.__init__` (`fisheye.py` line 9):
`np.linspace(-1, 1, n)`. -/
def ySamples {α : Type} [Field α] (n : ℕ) (i : ℕ) : α :=
  linspaceAt (-1) 1 n i

/-- `np.clip x lo hi = np.minimum(hi, np.maximum(lo, x))`. -/
def npClip {α : Type} [LinearOrder α] (x lo hi : α) : α :=
  min hi (max lo x)

/-- Lines 12-29 of `fisheye.py`: the normalized fisheye-disk coordinates
`(x, y)` looked up by destination cell `(i, j)`, before clipping and
rescaling.  The meshgrid pairs column `j` with `x_samples` and row `i` with
`y_samples`. -/
def fisheyeRaw {α : Type} [Field α] (T : TrigOps α) (n blending : ℕ)
    (aperture : α) (i j : ℕ) : α × α :=
  let x := xSamples n blending j
  let y := ySamples n i
  let longitude := x * T.pi
  let latitude := y * T.pi / 2
  let Px := T.cos latitude * T.cos longitude
  let Py := T.cos latitude * T.sin longitude
  let Pz := T.sin latitude
  let ap := aperture * T.pi
  let r := 2 * T.atan2 (T.sqrt (Px * Px + Pz * Pz)) Py / ap
  let theta := T.atan2 Pz Px + T.pi
  (r * T.cos theta, r * T.sin theta)

/-- Lines 31 and 34 of `fisheye.py`: `x = np.clip(x, -1, 1)` then
`x = (-x + 1) * side / 2`. -/
def rescaleX {α : Type} [LinearOrderedField α] (side : ℕ) (x : α) : α :=
  (-(npClip x (-1) 1) + 1) * (side : α) / 2

/-- Lines 32 and 35 of `fisheye.py`: `y = np.clip(y, -1, 1)` then
`y = (y + 1) * side / 2`. -/
def rescaleY {α : Type} [LinearOrderedField α] (side : ℕ) (y : α) : α :=
  (npClip y (-1) 1 + 1) * (side : α) / 2

/-- The x-coordinate lookup grid `self.x` built by
`FisheyeToEquirectangular.__init__`: shape `(n, n + blending*2)` from the
meshgrid of `x_samples` (length `n + blending*2`) and `y_samples`
(length `n`). -/
def mapGridX {α : Type} [LinearOrderedField α] (T : TrigOps α)
    (n side blending : ℕ) (aperture : α) : NpImage α :=
  ⟨n, n + blending * 2, fun i j => rescaleX side (fisheyeRaw T n blending aperture i j).1⟩

/-- The y-coordinate lookup grid `self.y` built by
`FisheyeToEquirectangular.__init__`. -/
def mapGridY {α : Type} [LinearOrderedField α] (T : TrigOps α)
    (n side blending : ℕ) (aperture : α) : NpImage α :=
  ⟨n, n + blending * 2, fun i j => rescaleY side (fisheyeRaw T n blending aperture i j).2⟩

/-- `FisheyeToEquirectangular.__init__` as a whole: builds the two lookup
grids.  The only failing input is `n = 0`, where Python raises
`ZeroDivisionError` at `blending / n` (line 7), modelled by `none`; the
constructor performs no other validation of its arguments. -/
def fisheyeInit {α : Type} [LinearOrderedField α] (T : TrigOps α)
    (n side blending : ℕ) (aperture : α) : Option (NpImage α × NpImage α) :=
  if n = 0 then none
  else some (mapGridX T n side blending aperture, mapGridY T n side blending aperture)

/-- `cv2.BORDER_REFLECT` index folding (`fedcba|abcdefgh|hgfedc`): fold an
arbitrary integer index into `[0, len)`. -/
def reflectIdx (len : ℕ) (i : ℤ) : ℕ :=
  let m := i % (2 * len)
  if m < (len : ℤ) then m.toNat else 2 * len - 1 - m.toNat

/-- Read pixel `(i, j)` of an image with `cv2.BORDER_REFLECT` handling of
out-of-range indices. -/
def sampleReflect {α : Type} (img : NpImage α) (i j : ℤ) : α :=
  img.val (reflectIdx img.height i) (reflectIdx img.width j)

/-- `cv2.INTER_LINEAR` sampling of `img` at real-valued source coordinates
`(x, y)` (x horizontal): bilinear interpolation of the four surrounding
pixels, borders reflected. -/
def bilinearSample {α : Type} [LinearOrderedField α] [FloorRing α]
    (img : NpImage α) (x y : α) : α :=
  let x0 : ℤ := ⌊x⌋
  let y0 : ℤ := ⌊y⌋
  let dx := x - (x0 : α)
  let dy := y - (y0 : α)
  (1 - dy) * ((1 - dx) * sampleReflect img y0 x0 + dx * sampleReflect img y0 (x0 + 1)) +
    dy * ((1 - dx) * sampleReflect img (y0 + 1) x0 + dx * sampleReflect img (y0 + 1) (x0 + 1))

/-- `cv2.remap img mapx mapy` with the defaults used by `unwarp_single`
(`INTER_LINEAR`, `BORDER_REFLECT`): the destination has the shape of the
lookup grids and every destination pixel samples the source at its looked-up
coordinates.  `cv2.remap` imposes no relation between the source image size
and the coordinate values. -/
def remap {α : Type} [LinearOrderedField α] [FloorRing α]
    (img mapx mapy : NpImage α) : NpImage α :=
  ⟨mapx.height, mapx.width, fun i j => bilinearSample img (mapx.val i j) (mapy.val i j)⟩

/-- `FisheyeToEquirectangular.unwarp_single` (`fisheye.py` lines 40-45) for a
map built from configuration `(n, side, blending, aperture)`: a single
`cv2.remap` call, with no validation of the input frame's shape. -/
def unwarp_single {α : Type} [LinearOrderedField α] [FloorRing α] (T : TrigOps α)
    (n side blending : ℕ) (aperture : α) (img : NpImage α) : NpImage α :=
  remap img (mapGridX T n side blending aperture) (mapGridY T n side blending aperture)

/-- Modelled from the spec: the FrameWarper contract of spec section 4.2,
"Fails with `ShapeMismatch` if `frame` dimensions disagree with the
`sourceSide` used to build `map`" - the warp succeeds only on a
`side × side` input frame.  Stated for comparison with `unwarp_single`,
which is what the code actually does. -/
def unwarp_single_spec {α : Type} [LinearOrderedField α] [FloorRing α] (T : TrigOps α)
    (n side blending : ℕ) (aperture : α) (img : NpImage α) : Option (NpImage α) :=
  if img.height = side ∧ img.width = side then
    some (unwarp_single T n side blending aperture img)
  else none

/-! ### Bounds of the clipped and rescaled lookup coordinates -/

lemma npClip_le_one {α : Type} [LinearOrderedField α] (x : α) : npClip x (-1) 1 ≤ 1 :=
  min_le_left _ _

lemma neg_one_le_npClip {α : Type} [LinearOrderedField α] (x : α) :
    (-1 : α) ≤ npClip x (-1) 1 :=
  le_min (by norm_num) (le_max_left _ _)

lemma rescaleX_bounds {α : Type} [LinearOrderedField α] (side : ℕ) (x : α) :
    0 ≤ rescaleX side x ∧ rescaleX side x ≤ side := by
  have h1 : npClip x (-1) 1 ≤ 1 := npClip_le_one x
  have h2 : (-1 : α) ≤ npClip x (-1) 1 := neg_one_le_npClip x
  have hs : (0 : α) ≤ (side : α) := Nat.cast_nonneg side
  unfold rescaleX
  constructor
  · apply div_nonneg _ (by norm_num : (0 : α) ≤ 2)
    exact mul_nonneg (by linarith) hs
  · rw [div_le_iff (by norm_num : (0 : α) < 2)]
    have h3 : -npClip x (-1) 1 + 1 ≤ 2 := by linarith
    nlinarith [mul_le_mul_of_nonneg_right h3 hs]

lemma rescaleY_bounds {α : Type} [LinearOrderedField α] (side : ℕ) (y : α) :
    0 ≤ rescaleY side y ∧ rescaleY side y ≤ side := by
  have h1 : npClip y (-1) 1 ≤ 1 := npClip_le_one y
  have h2 : (-1 : α) ≤ npClip y (-1) 1 := neg_one_le_npClip y
  have hs : (0 : α) ≤ (side : α) := Nat.cast_nonneg side
  unfold rescaleY
  constructor
  · apply div_nonneg _ (by norm_num : (0 : α) ≤ 2)
    exact mul_nonneg (by linarith) hs
  · rw [div_le_iff (by norm_num : (0 : α) < 2)]
    have h3 : npClip y (-1) 1 + 1 ≤ 2 := by linarith
    nlinarith [mul_le_mul_of_nonneg_right h3 hs]

/-- Claim C3: for valid configurations the map builder returns two grids of
shape `outputHeight × (outputHeight + 2*blend)` and every coordinate value of
both grids lies in `[0, sourceSide]` (the normalized coordinates are clamped
to `[-1, 1]` before rescaling, so this holds whatever the trigonometry
produces). -/
theorem mapGrid_shape_and_bounds (n side b : ℕ) (a : ℝ)
    (hn : 2 ≤ n) (hside : 1 ≤ side) (hb : b * 2 < n) (ha : 0 < a) :
    (mapGridX realTrig n side b a).height = n ∧
    (mapGridX realTrig n side b a).width = n + b * 2 ∧
    (mapGridY realTrig n side b a).height = n ∧
    (mapGridY realTrig n side b a).width = n + b * 2 ∧
    (∀ i j, 0 ≤ (mapGridX realTrig n side b a).val i j ∧
      (mapGridX realTrig n side b a).val i j ≤ side) ∧
    (∀ i j, 0 ≤ (mapGridY realTrig n side b a).val i j ∧
      (mapGridY realTrig n side b a).val i j ≤ side) :=
  ⟨rfl, rfl, rfl, rfl, fun _ j => rescaleX_bounds side _, fun i _ => rescaleY_bounds side _⟩

theorem mapGrid_shape_and_bounds_witness :
    2 ≤ 2 ∧ 1 ≤ 1 ∧ 0 * 2 < 2 ∧ (0 : ℝ) < 1 ∧
      ((mapGridX realTrig 2 1 0 1).height = 2 ∧
        (mapGridX realTrig 2 1 0 1).width = 2 + 0 * 2 ∧
        (mapGridY realTrig 2 1 0 1).height = 2 ∧
        (mapGridY realTrig 2 1 0 1).width = 2 + 0 * 2 ∧
        (∀ i j, 0 ≤ (mapGridX realTrig 2 1 0 1).val i j ∧
          (mapGridX realTrig 2 1 0 1).val i j ≤ ((1 : ℕ) : ℝ)) ∧
        (∀ i j, 0 ≤ (mapGridY realTrig 2 1 0 1).val i j ∧
          (mapGridY realTrig 2 1 0 1).val i j ≤ ((1 : ℕ) : ℝ))) :=
  ⟨by decide, by decide, by decide, by norm_num,
    mapGrid_shape_and_bounds 2 1 0 1 (by decide) (by decide) (by decide) (by norm_num)⟩

/-- Claim C4 counterexample: at `outputHeight = 2`, `blend = 1` the first
normalized longitude sample built by `__init__` is `-1/2` (the grid spans
`[0 - blend/outputHeight, 1 + blend/outputHeight]`), not the
`-1 - blend/outputHeight = -3/2` the claim states. -/
theorem xSamples_lower_endpoint_cex :
    xSamples (α := ℚ) 2 1 0 = -(1 : ℚ) / 2 ∧
      ¬ xSamples (α := ℚ) 2 1 0 = -1 - 1 / 2 := by
  constructor <;> norm_num [xSamples, linspaceAt]

/-- Claim C4 amended: the builder samples a regular grid of `outputHeight`
rows by `outputHeight + 2*blend` columns; the normalized longitude samples
span `[0 - blend/outputHeight, 1 + blend/outputHeight]` (not
`[-1 - blend/outputHeight, ...]`) and the latitude samples span `[-1, 1]`
(longitude `x*pi` and latitude `y*pi/2` are then formed from these samples,
as transcribed in `fisheyeRaw`). -/
theorem grid_samples_span (n side b : ℕ) (a : ℝ) (hn : 2 ≤ n) :
    (mapGridX realTrig n side b a).height = n ∧
    (mapGridX realTrig n side b a).width = n + b * 2 ∧
    xSamples (α := ℝ) n b 0 = 0 - (b : ℝ) / n ∧
    xSamples (α := ℝ) n b (n + b * 2 - 1) = 1 + (b : ℝ) / n ∧
    ySamples (α := ℝ) n 0 = -1 ∧
    ySamples (α := ℝ) n (n - 1) = 1 := by
  have hn1 : (1 : ℝ) ≤ (n : ℝ) := by exact_mod_cast Nat.one_le_of_lt hn
  refine ⟨rfl, rfl, by simp [xSamples, linspaceAt], ?_, by simp [ySamples, linspaceAt], ?_⟩
  · have hN : 2 ≤ n + b * 2 := by omega
    have hcast : ((n + b * 2 - 1 : ℕ) : ℝ) = ((n + b * 2 : ℕ) : ℝ) - 1 := by
      rw [Nat.cast_sub (by omega)]; norm_num
    have hne : ((n + b * 2 : ℕ) : ℝ) - 1 ≠ 0 := by
      have h2 : (2 : ℝ) ≤ ((n + b * 2 : ℕ) : ℝ) := by exact_mod_cast hN
      linarith
    unfold xSamples linspaceAt
    rw [hcast, mul_comm (((n + b * 2 : ℕ) : ℝ) - 1), mul_div_assoc, div_self hne, mul_one]
    ring
  · have hcast : ((n - 1 : ℕ) : ℝ) = (n : ℝ) - 1 := by
      rw [Nat.cast_sub (by omega)]; norm_num
    have hne : (n : ℝ) - 1 ≠ 0 := by
      have : (2 : ℝ) ≤ (n : ℝ) := by exact_mod_cast hn
      linarith
    unfold ySamples linspaceAt
    rw [hcast]
    field_simp

theorem grid_samples_span_witness :
    2 ≤ 2 ∧
      ((mapGridX realTrig 2 1 1 0).height = 2 ∧
        (mapGridX realTrig 2 1 1 0).width = 2 + 1 * 2 ∧
        xSamples (α := ℝ) 2 1 0 = 0 - ((1 : ℕ) : ℝ) / ((2 : ℕ) : ℝ) ∧
        xSamples (α := ℝ) 2 1 (2 + 1 * 2 - 1) = 1 + ((1 : ℕ) : ℝ) / ((2 : ℕ) : ℝ) ∧
        ySamples (α := ℝ) 2 0 = -1 ∧
        ySamples (α := ℝ) 2 (2 - 1) = 1) :=
  ⟨by decide, grid_samples_span 2 1 1 0 (by decide)⟩

/-- Claim C6: for every blend width `b ≥ 1` the crossfade weight vectors
`fu = np.linspace(0, 1, 2b)` and `fd = np.linspace(1, 0, 2b)` built by
`unwarp_pair` satisfy `fu[c] + fd[c] = 1` at every blend column `c < 2b`
(exactly, in the rational model of the float computation). -/
theorem crossfade_weights_sum_one (b c : ℕ) (hb : 1 ≤ b) (hc : c < b * 2) :
    (npLinspace 0 1 (b * 2)).val c + (npLinspace 1 0 (b * 2)).val c = 1 := by
  simp only [npLinspace]
  ring

theorem crossfade_weights_sum_one_witness :
    1 ≤ 1 ∧ 0 < 1 * 2 ∧
      (npLinspace 0 1 (1 * 2)).val 0 + (npLinspace 1 0 (1 * 2)).val 0 = 1 :=
  ⟨by decide, by decide, crossfade_weights_sum_one 1 0 (by decide) (by decide)⟩

/-- Claim C8 counterexample: `unwarp_single` with a map built for
`sourceSide = 4` applied to a 2x2 frame does not fail: the spec-modelled
contract (`unwarp_single_spec`) rejects this input with `ShapeMismatch`
(`none`), but the code's warp returns a full frame of the map's shape. -/
theorem unwarp_single_no_shape_check_cex :
    unwarp_single_spec realTrig 2 4 0 (1 : ℝ) ⟨2, 2, fun _ _ => 0⟩ = none ∧
    (unwarp_single realTrig 2 4 0 (1 : ℝ) ⟨2, 2, fun _ _ => 0⟩).height = 2 ∧
    (unwarp_single realTrig 2 4 0 (1 : ℝ) ⟨2, 2, fun _ _ => 0⟩).width = 2 + 0 * 2 := by
  refine ⟨?_, rfl, rfl⟩
  unfold unwarp_single_spec
  rw [if_neg (by simp)]

/-- Claim C8 amended: `unwarp_single` performs no shape validation at all: it
is a total pure function of its inputs that, for any input frame whatsoever,
returns the remapped frame of the map's shape (out-of-range lookups are
handled by the border mode, never by an error). -/
theorem unwarp_single_total_shape (n side b : ℕ) (a : ℝ) (img : NpImage ℝ) :
    (unwarp_single realTrig n side b a img).height = n ∧
    (unwarp_single realTrig n side b a img).width = n + b * 2 :=
  ⟨rfl, rfl⟩

/-- Claim C9 counterexample: the constructor succeeds (builds the two lookup
grids) at a configuration the claim says must fail with `InvalidConfig`:
`sourceSide = 0 < 1`, `blend = 2 ≥ outputHeight/2 = 2` and
`aperture = 0 ≤ 0`. -/
theorem fisheyeInit_no_validation_cex :
    (fisheyeInit realTrig 4 0 2 (0 : ℝ)).isSome = true := by
  unfold fisheyeInit
  rw [if_neg (by decide)]
  rfl

/-- Claim C9 amended: `__init__` validates nothing: for every output height
`n ≥ 1` it succeeds whatever the source side, blend width and aperture; the
only failing configuration is `n = 0`, where `blending / n` raises
`ZeroDivisionError` (not any `InvalidConfig`). -/
theorem fisheyeInit_total_for_positive_height (T : TrigOps ℝ) (n side b : ℕ)
    (a : ℝ) (hn : 1 ≤ n) : (fisheyeInit T n side b a).isSome = true := by
  unfold fisheyeInit
  rw [if_neg (by omega)]
  rfl

theorem fisheyeInit_total_for_positive_height_witness :
    1 ≤ 1 ∧ (fisheyeInit realTrig 1 0 0 (0 : ℝ)).isSome = true :=
  ⟨le_refl 1, fisheyeInit_total_for_positive_height realTrig 1 0 0 0 (le_refl 1)⟩

/-! ### Slicing and broadcasting lemmas for the blend -/

lemma pyIdx_natCast (len k : ℕ) : pyIdx len (k : ℤ) = min len k := by
  unfold pyIdx
  rw [if_neg (by omega), Int.toNat_natCast]

lemma pyIdx_negCast (len k : ℕ) (hk : 1 ≤ k) : pyIdx len (-(k : ℤ)) = len - k := by
  unfold pyIdx
  rw [if_pos (by omega), Int.natAbs_neg, Int.natAbs_ofNat]

lemma pyIdx_zero (len : ℕ) : pyIdx len 0 = 0 := by
  unfold pyIdx
  rw [if_neg (by omega)]
  simp

lemma NpRow.ext_mk {w1 w2 : ℕ} {f1 f2 : ℕ → ℚ} (hw : w1 = w2)
    (hf : ∀ c, f1 c = f2 c) : (⟨w1, f1⟩ : NpRow) = ⟨w2, f2⟩ := by
  subst hw
  exact congrArg (NpRow.mk w1) (funext hf)

lemma npMul_mk (w : ℕ) (f g : ℕ → ℚ) :
    npMul ⟨w, f⟩ ⟨w, g⟩ = some ⟨w, fun c => f c * g c⟩ := by
  unfold npMul
  rw [if_pos rfl]

lemma npAdd_mk (w : ℕ) (f g : ℕ → ℚ) :
    npAdd ⟨w, f⟩ ⟨w, g⟩ = some ⟨w, fun c => f c + g c⟩ := by
  unfold npAdd
  rw [if_pos rfl]

lemma npMul_mk_left (w : ℕ) (f : ℕ → ℚ) (v : NpRow) (h : v.width = w) :
    npMul ⟨w, f⟩ v = some ⟨w, fun c => f c * v.val c⟩ := by
  unfold npMul
  rw [if_pos h.symm]

lemma npLinspace_width (lo hi : ℚ) (num : ℕ) : (npLinspace lo hi num).width = num := rfl

lemma npSlice_zeroW (a : NpRow) : npSlice a 0 0 = ⟨0, fun c => a.val c⟩ := by
  unfold npSlice
  simp [pyIdx_zero]

lemma npSlice_zero_full (a : NpRow) : npSlice a 0 (a.width : ℤ) = ⟨a.width, fun c => a.val c⟩ := by
  unfold npSlice
  simp [pyIdx_zero, pyIdx_natCast]

/-- Closed form of the blend for a well-shaped input pair: warped rows of
width `n + 2b` with `b ≥ 1` and `2b ≤ n`.  The five bands are, left to
right: `lb*fu[b:] + rd*fd[b:]`, the left body `lc`, `ld*fd + ra*fu`, the
right body `rb`, and `rc*fd[:b] + la*fu[:b]`. -/
lemma unwarp_pair_rows_eq (b n : ℕ) (ul ur : NpRow) (hb : 1 ≤ b)
    (hul : ul.width = n + b * 2) (hur : ur.width = n + b * 2) (hbn : b * 2 ≤ n) :
    unwarp_pair_rows b ul ur = some (npHstack (npHstack (npHstack (npHstack
      ⟨b, fun c => ul.val (b + c) * (npLinspace 0 1 (b * 2)).val (b + c) +
        ur.val (n + b + c) * (npLinspace 1 0 (b * 2)).val (b + c)⟩
      ⟨n - b * 2, fun c => ul.val (b * 2 + c)⟩)
      ⟨b * 2, fun c => ul.val (n + c) * (npLinspace 1 0 (b * 2)).val c +
        ur.val c * (npLinspace 0 1 (b * 2)).val c⟩)
      ⟨n - b * 2, fun c => ur.val (b * 2 + c)⟩)
      ⟨b, fun c => ur.val (n + c) * (npLinspace 1 0 (b * 2)).val c +
        ul.val c * (npLinspace 0 1 (b * 2)).val c⟩) := by
  have hb2 : 1 ≤ b * 2 := by omega
  have e_la : npSlice ul (0 : ℤ) (b : ℤ) = ⟨b, fun c => ul.val c⟩ := by
    unfold npSlice
    simp only [pyIdx_zero, pyIdx_natCast]
    exact NpRow.ext_mk (by omega) fun c => congrArg ul.val (by omega)
  have e_lb : npSlice ul (b : ℤ) ((b * 2 : ℕ) : ℤ) = ⟨b, fun c => ul.val (b + c)⟩ := by
    unfold npSlice
    simp only [pyIdx_natCast]
    exact NpRow.ext_mk (by omega) fun c => congrArg ul.val (by omega)
  have e_lc : npSlice ul ((b * 2 : ℕ) : ℤ) (-((b * 2 : ℕ) : ℤ)) =
      ⟨n - b * 2, fun c => ul.val (b * 2 + c)⟩ := by
    unfold npSlice
    simp only [pyIdx_natCast, pyIdx_negCast ul.width (b * 2) hb2]
    exact NpRow.ext_mk (by omega) fun c => congrArg ul.val (by omega)
  have e_ld : npSlice ul (-((b * 2 : ℕ) : ℤ)) (ul.width : ℤ) =
      ⟨b * 2, fun c => ul.val (n + c)⟩ := by
    unfold npSlice
    simp only [pyIdx_natCast, pyIdx_negCast ul.width (b * 2) hb2]
    exact NpRow.ext_mk (by omega) fun c => congrArg ul.val (by omega)
  have e_ra : npSlice ur (0 : ℤ) ((b * 2 : ℕ) : ℤ) = ⟨b * 2, fun c => ur.val c⟩ := by
    unfold npSlice
    simp only [pyIdx_zero, pyIdx_natCast]
    exact NpRow.ext_mk (by omega) fun c => congrArg ur.val (by omega)
  have e_rb : npSlice ur ((b * 2 : ℕ) : ℤ) (-((b * 2 : ℕ) : ℤ)) =
      ⟨n - b * 2, fun c => ur.val (b * 2 + c)⟩ := by
    unfold npSlice
    simp only [pyIdx_natCast, pyIdx_negCast ur.width (b * 2) hb2]
    exact NpRow.ext_mk (by omega) fun c => congrArg ur.val (by omega)
  have e_rc : npSlice ur (-((b * 2 : ℕ) : ℤ)) (-(b : ℤ)) =
      ⟨b, fun c => ur.val (n + c)⟩ := by
    unfold npSlice
    simp only [pyIdx_negCast ur.width (b * 2) hb2, pyIdx_negCast ur.width b hb]
    exact NpRow.ext_mk (by omega) fun c => congrArg ur.val (by omega)
  have e_rd : npSlice ur (-(b : ℤ)) (ur.width : ℤ) =
      ⟨b, fun c => ur.val (n + b + c)⟩ := by
    unfold npSlice
    simp only [pyIdx_natCast, pyIdx_negCast ur.width b hb]
    exact NpRow.ext_mk (by omega) fun c => congrArg ur.val (by omega)
  have e_fuB : npSlice (npLinspace 0 1 (b * 2)) (b : ℤ) ((b * 2 : ℕ) : ℤ) =
      ⟨b, fun c => (npLinspace 0 1 (b * 2)).val (b + c)⟩ := by
    unfold npSlice
    simp only [pyIdx_natCast, npLinspace_width]
    exact NpRow.ext_mk (by omega) fun c => congrArg _ (by omega)
  have e_fdB : npSlice (npLinspace 1 0 (b * 2)) (b : ℤ) ((b * 2 : ℕ) : ℤ) =
      ⟨b, fun c => (npLinspace 1 0 (b * 2)).val (b + c)⟩ := by
    unfold npSlice
    simp only [pyIdx_natCast, npLinspace_width]
    exact NpRow.ext_mk (by omega) fun c => congrArg _ (by omega)
  have e_fd0 : npSlice (npLinspace 1 0 (b * 2)) (0 : ℤ) (b : ℤ) =
      ⟨b, fun c => (npLinspace 1 0 (b * 2)).val c⟩ := by
    unfold npSlice
    simp only [pyIdx_zero, pyIdx_natCast, npLinspace_width]
    exact NpRow.ext_mk (by omega) fun c => congrArg _ (by omega)
  have e_fu0 : npSlice (npLinspace 0 1 (b * 2)) (0 : ℤ) (b : ℤ) =
      ⟨b, fun c => (npLinspace 0 1 (b * 2)).val c⟩ := by
    unfold npSlice
    simp only [pyIdx_zero, pyIdx_natCast, npLinspace_width]
    exact NpRow.ext_mk (by omega) fun c => congrArg _ (by omega)
  have e_t3 := npMul_mk_left (b * 2) (fun c => ul.val (n + c)) (npLinspace 1 0 (b * 2)) rfl
  have e_t4 := npMul_mk_left (b * 2) (fun c => ur.val c) (npLinspace 0 1 (b * 2)) rfl
  simp only [unwarp_pair_rows, npLinspace_width, e_la, e_lb, e_lc, e_ld, e_ra, e_rb,
    e_rc, e_rd, e_fuB, e_fdB, e_fd0, e_fu0, e_t3, e_t4, npMul_mk, npAdd_mk,
    Option.bind_eq_bind', Option.some_bind]
  rfl

/-- With `blending = 0` the body slices `[0:-0] = [0:0]` are empty while
`ld = ul[-0:]` and `rd = ur[-0:]` are the full rows, so the products with the
empty weight vectors fail to broadcast: the blend raises (returns `none`) for
any row wider than one pixel. -/
lemma unwarp_pair_rows_zero (ul ur : NpRow) (h : 2 ≤ ur.width) :
    unwarp_pair_rows 0 ul ur = none := by
  have hnone : ∀ f g : ℕ → ℚ, npMul (⟨ur.width, f⟩ : NpRow) (⟨0, g⟩ : NpRow) = none := by
    intro f g
    unfold npMul
    rw [if_neg (by show ¬ ur.width = 0; omega), if_neg (by show ¬ (0 : ℕ) = 1; omega),
      if_neg (by show ¬ ur.width = 1; omega)]
  simp only [unwarp_pair_rows, Nat.zero_mul, Nat.cast_zero, neg_zero, npLinspace_width,
    npSlice_zeroW, npSlice_zero_full, npMul_mk, npAdd_mk, Option.bind_eq_bind',
    Option.some_bind, hnone, Option.none_bind]

/-- Claim C10: with `blending = 0` the pairwise blend fails (empty body
slices are paired with full-width bands against empty weight vectors and the
broadcast raises), while every `blending ≥ 1` on well-shaped warped rows
produces a composite. -/
theorem unwarp_pair_rows_blend_necessity (b n : ℕ) (ul ur : NpRow) (hb : 1 ≤ b)
    (hul : ul.width = n + b * 2) (hur : ur.width = n + b * 2) (hbn : b * 2 ≤ n) :
    unwarp_pair_rows 0 ul ur = none ∧ (unwarp_pair_rows b ul ur).isSome = true := by
  constructor
  · exact unwarp_pair_rows_zero ul ur (by omega)
  · rw [unwarp_pair_rows_eq b n ul ur hb hul hur hbn]
    rfl

theorem unwarp_pair_rows_blend_necessity_witness :
    1 ≤ 1 ∧ (⟨4, fun _ => (0 : ℚ)⟩ : NpRow).width = 2 + 1 * 2 ∧ 1 * 2 ≤ 2 ∧
      (unwarp_pair_rows 0 ⟨4, fun _ => 0⟩ ⟨4, fun _ => 0⟩ = none ∧
        (unwarp_pair_rows 1 ⟨4, fun _ => 0⟩ ⟨4, fun _ => 0⟩).isSome = true) :=
  ⟨by decide, by decide, by decide,
    unwarp_pair_rows_blend_necessity 1 2 ⟨4, fun _ => 0⟩ ⟨4, fun _ => 0⟩
      (by decide) (by decide) (by decide) (by decide)⟩

/-- Claim C2 counterexample: two warped rows of width 6 blended with
`blend = 1` yield a composite of width 8, not `6 - 2*1 = 4`: the blend
output concatenates both bodies, so its width is twice
`left.width - 2*blend`, not `left.width - 2*blend` itself. -/
theorem unwarp_pair_width_cex :
    (unwarp_pair_rows 1 ⟨6, fun _ => 0⟩ ⟨6, fun _ => 0⟩).map NpRow.width = some 8 ∧
      (unwarp_pair_rows 1 ⟨6, fun _ => 0⟩ ⟨6, fun _ => 0⟩).map NpRow.width ≠
        some (6 - 2 * 1) := by
  constructor <;> decide

/-- Claim C2 amended: for warped rows of equal width `n + 2b` (with `b ≥ 1`
and `2b ≤ n`, the shapes the map builder produces), the blend output width is
`2 * (left.width - 2*blend)` - twice the claimed value, one full equirect
height per camera. -/
theorem unwarp_pair_width_doubled (b n : ℕ) (ul ur : NpRow) (hb : 1 ≤ b)
    (hul : ul.width = n + b * 2) (hur : ur.width = n + b * 2) (hbn : b * 2 ≤ n) :
    ∃ out, unwarp_pair_rows b ul ur = some out ∧
      out.width = 2 * (ul.width - 2 * b) := by
  refine ⟨_, unwarp_pair_rows_eq b n ul ur hb hul hur hbn, ?_⟩
  show b + (n - b * 2) + b * 2 + (n - b * 2) + b = 2 * (ul.width - 2 * b)
  omega

theorem unwarp_pair_width_doubled_witness :
    1 ≤ 1 ∧ (⟨6, fun _ => (0 : ℚ)⟩ : NpRow).width = 4 + 1 * 2 ∧ 1 * 2 ≤ 4 ∧
      ∃ out, unwarp_pair_rows 1 ⟨6, fun _ => 0⟩ ⟨6, fun _ => 0⟩ = some out ∧
        out.width = 2 * ((⟨6, fun _ => (0 : ℚ)⟩ : NpRow).width - 2 * 1) :=
  ⟨by decide, by decide, by decide,
    unwarp_pair_width_doubled 1 4 ⟨6, fun _ => 0⟩ ⟨6, fun _ => 0⟩
      (by decide) (by decide) (by decide) (by decide)⟩

/-- Claim C5 counterexample: with `b = 2` and warped rows of width 8, the
first output band is NOT a crossfade of `left[b:2b]` with
`right[W-2b:W-b] = right[4:6]`: take `left` all zero and `right` zero on
columns 4,5 and one on columns 6,7; any weighting of the claimed slices is 0,
but the code's first band value at column 0 is `fd[2] = 1/3`, because the
code crossfades with `right[-b:] = right[6:8]` instead. -/
theorem first_band_slices_cex :
    ¬ ∃ wl wr : ℕ → ℚ, ∀ c, c < 2 →
      ((unwarp_pair_rows 2 ⟨8, fun _ => 0⟩
          ⟨8, fun j => if j < 6 then 0 else 1⟩).getD ⟨0, fun _ => 0⟩).val c =
        wl c * (⟨8, fun _ => (0 : ℚ)⟩ : NpRow).val (2 + c) +
          wr c * (⟨8, fun j => if j < 6 then (0 : ℚ) else 1⟩ : NpRow).val (8 - 2 * 2 + c) := by
  rintro ⟨wl, wr, h⟩
  have h0 := h 0 (by norm_num)
  have heq := unwarp_pair_rows_eq 2 4 ⟨8, fun _ => 0⟩ ⟨8, fun j => if j < 6 then 0 else 1⟩
    (by decide) (by decide) (by decide) (by decide)
  have hL : ((unwarp_pair_rows 2 ⟨8, fun _ => 0⟩
      ⟨8, fun j => if j < 6 then 0 else 1⟩).getD ⟨0, fun _ => 0⟩).val 0 = 1 / 3 := by
    rw [heq, Option.getD_some]
    norm_num [npHstack, npLinspace]
  rw [hL, show (⟨8, fun _ => (0 : ℚ)⟩ : NpRow).val (2 + 0) = 0 from rfl,
    show (⟨8, fun j => if j < 6 then (0 : ℚ) else 1⟩ : NpRow).val (8 - 2 * 2 + 0) = 0 from rfl]
    at h0
  norm_num at h0

/-- Claim C5 amended: the first band of width `b` crossfades the left row's
columns `[b, 2b)` with the RIGHT ROW'S LAST `b` COLUMNS `[W-b, W)` (not
`[W-2b, W-b)`), using the upper half of the weight ramps (`fu[b+c]` rising to
1, `fd[b+c]` falling to 0); the last band crossfades the right row's columns
`[W-2b, W-b)` with the left row's columns `[0, b)` using the lower half of
the ramps - the full `0 to 1` ramp is split across the wrap-around seam. -/
theorem blend_band_formulas (b n : ℕ) (ul ur : NpRow) (hb : 1 ≤ b)
    (hul : ul.width = n + b * 2) (hur : ur.width = n + b * 2) (hbn : b * 2 ≤ n) :
    ∃ out, unwarp_pair_rows b ul ur = some out ∧
      (∀ c, c < b → out.val c =
        ul.val (b + c) * (npLinspace 0 1 (b * 2)).val (b + c) +
          ur.val (n + b + c) * (npLinspace 1 0 (b * 2)).val (b + c)) ∧
      (∀ c, c < b → out.val (2 * n - b + c) =
        ur.val (n + c) * (npLinspace 1 0 (b * 2)).val c +
          ul.val c * (npLinspace 0 1 (b * 2)).val c) := by
  refine ⟨_, unwarp_pair_rows_eq b n ul ur hb hul hur hbn, fun c hc => ?_, fun c hc => ?_⟩
  · simp only [npHstack]
    rw [if_pos (by omega), if_pos (by omega), if_pos (by omega), if_pos (by omega)]
  · simp only [npHstack]
    have hsub : 2 * n - b + c - (b + (n - b * 2) + b * 2 + (n - b * 2)) = c := by omega
    rw [if_neg (by omega), hsub]

theorem blend_band_formulas_witness :
    1 ≤ 1 ∧ (⟨4, fun _ => (1 : ℚ)⟩ : NpRow).width = 2 + 1 * 2 ∧ 1 * 2 ≤ 2 ∧
      ∃ out, unwarp_pair_rows 1 ⟨4, fun _ => 1⟩ ⟨4, fun _ => 1⟩ = some out ∧
        (∀ c, c < 1 → out.val c =
          (⟨4, fun _ => (1 : ℚ)⟩ : NpRow).val (1 + c) * (npLinspace 0 1 (1 * 2)).val (1 + c) +
            (⟨4, fun _ => (1 : ℚ)⟩ : NpRow).val (2 + 1 + c) * (npLinspace 1 0 (1 * 2)).val (1 + c)) ∧
        (∀ c, c < 1 → out.val (2 * 2 - 1 + c) =
          (⟨4, fun _ => (1 : ℚ)⟩ : NpRow).val (2 + c) * (npLinspace 1 0 (1 * 2)).val c +
            (⟨4, fun _ => (1 : ℚ)⟩ : NpRow).val c * (npLinspace 0 1 (1 * 2)).val c) :=
  ⟨by decide, by decide, by decide,
    blend_band_formulas 1 2 ⟨4, fun _ => 1⟩ ⟨4, fun _ => 1⟩
      (by decide) (by decide) (by decide) (by decide)⟩

/-! ### The frame loop on streams made of whole frames -/

/-- A non-empty frame read never looks empty. -/
lemma isEmpty_false_of_full (bc : ℕ) (hbc : 1 ≤ bc) (f : List ℕ) (hf : f.length = bc) :
    f.isEmpty = false := by
  cases f with
  | nil => simp at hf; omega
  | cons a t => rfl

/-- On two sources that are concatenations of whole `bc`-sized frames, the
frame loop never errors: it pairs the frames in order and stops at the first
exhausted side or at the fuel bound. -/
lemma streamLoop_flatten (bc : ℕ) (hbc : 1 ≤ bc) :
    ∀ (fuel : ℕ) (L R : List (List ℕ)),
      (∀ f ∈ L, f.length = bc) → (∀ f ∈ R, f.length = bc) →
      streamLoop bc fuel L.flatten R.flatten = .ok ((L.zip R).take fuel) := by
  intro fuel
  induction fuel with
  | zero => intro L R hL hR; rfl
  | succ fuel ih =>
    intro L R hL hR
    cases L with
    | nil => simp [streamLoop, readChunk]
    | cons f L =>
      have hf : f.length = bc := hL f (List.mem_cons_self f L)
      have hfe : f.isEmpty = false := isEmpty_false_of_full bc hbc f hf
      cases R with
      | nil =>
        have htakeL : (f ++ L.flatten).take bc = f := List.take_left' hf
        simp [streamLoop, readChunk, List.flatten_cons, htakeL, hfe]
      | cons g R =>
        have hg : g.length = bc := hR g (List.mem_cons_self g R)
        have hge : g.isEmpty = false := isEmpty_false_of_full bc hbc g hg
        have htakeL : (f ++ L.flatten).take bc = f := List.take_left' hf
        have hdropL : (f ++ L.flatten).drop bc = L.flatten := List.drop_left' hf
        have htakeR : (g ++ R.flatten).take bc = g := List.take_left' hg
        have hdropR : (g ++ R.flatten).drop bc = R.flatten := List.drop_left' hg
        have hrec := ih L R (fun x hx => hL x (List.mem_cons_of_mem f hx))
          (fun x hx => hR x (List.mem_cons_of_mem g hx))
        simp [streamLoop, readChunk, List.flatten_cons, htakeL, hdropL, htakeR, hdropR,
          hfe, hge, hf, hg, hrec]

/-- The alignment loop on a whole-frame source discards exactly the first
`k` frames. -/
lemma skipFramesSrc_flatten (bc : ℕ) :
    ∀ (k : ℕ) (L : List (List ℕ)), (∀ f ∈ L, f.length = bc) → k ≤ L.length →
      skipFramesSrc bc k L.flatten = (L.drop k).flatten := by
  intro k
  induction k with
  | zero => intro L hL hk; rfl
  | succ k ih =>
    intro L hL hk
    cases L with
    | nil => simp at hk
    | cons f L =>
      have hf : f.length = bc := hL f (List.mem_cons_self f L)
      show skipFramesSrc bc k ((f :: L).flatten.drop bc) = _
      rw [List.flatten_cons, List.drop_left' hf]
      exact ih L (fun x hx => hL x (List.mem_cons_of_mem f hx)) (by simpa using hk)

/-- Claim C7: on whole-frame sources long enough for the skips, the pipeline
discards exactly `skipL` (resp. `skipR`) leading frames, then emits to the
sink exactly `min frameCount (min availableLeft availableRight)` composited
pairs in 0-based order, frame `i` of the aligned left source always paired
with frame `i` of the aligned right source. -/
theorem pipeline_skip_pair_count (bc skipL skipR nFrames : ℕ) (hbc : 1 ≤ bc)
    (L R : List (List ℕ)) (hL : ∀ f ∈ L, f.length = bc) (hR : ∀ f ∈ R, f.length = bc)
    (hsl : skipL ≤ L.length) (hsr : skipR ≤ R.length) :
    pipelineRun bc skipL skipR nFrames L.flatten R.flatten =
      .ok (((L.drop skipL).zip (R.drop skipR)).take nFrames) ∧
    (((L.drop skipL).zip (R.drop skipR)).take nFrames).length =
      min nFrames (min (L.length - skipL) (R.length - skipR)) := by
  constructor
  · unfold pipelineRun
    rw [skipFramesSrc_flatten bc skipL L hL hsl, skipFramesSrc_flatten bc skipR R hR hsr]
    exact streamLoop_flatten bc hbc nFrames (L.drop skipL) (R.drop skipR)
      (fun x hx => hL x (List.mem_of_mem_drop hx))
      (fun x hx => hR x (List.mem_of_mem_drop hx))
  · simp [List.length_take, List.length_zip, List.length_drop]

theorem pipeline_skip_pair_count_witness :
    1 ≤ 1 ∧ (∀ f ∈ [[0], [1], [2]], List.length f = 1) ∧
      (∀ f ∈ [[5], [6], [7], [8]], List.length f = 1) ∧ 1 ≤ 3 ∧ 2 ≤ 4 ∧
      (pipelineRun 1 1 2 5 [[0], [1], [2]].flatten [[5], [6], [7], [8]].flatten =
        .ok ((([[0], [1], [2]].drop 1).zip ([[5], [6], [7], [8]].drop 2)).take 5) ∧
      ((([[0], [1], [2]].drop 1).zip ([[5], [6], [7], [8]].drop 2)).take 5).length =
        min 5 (min ([[0], [1], [2]].length - 1) ([[5], [6], [7], [8]].length - 2))) :=
  ⟨by decide, by decide, by decide, by decide, by decide,
    pipeline_skip_pair_count 1 1 2 5 (by decide) [[0], [1], [2]] [[5], [6], [7], [8]]
      (by decide) (by decide) (by decide) (by decide)⟩

/-- Claim C1 counterexample: a left source of 4 bytes with a 3-byte frame
size.  The second read yields 1 byte - fewer than one full frame but not
zero - and the loop does NOT transition to DONE: `np.frombuffer(...).reshape`
raises (the loop only breaks on an empty read, `if not left_bytes`), so the
run is an error, not the clean stop with one produced frame the claim
requires. -/
theorem pipeline_short_read_errors_cex :
    pipelineRun 3 0 0 2 [9, 9, 9, 7] [1, 1, 1, 1, 1, 1] = .error "reshape" ∧
      pipelineRun 3 0 0 2 [9, 9, 9, 7] [1, 1, 1, 1, 1, 1] ≠
        .ok [([9, 9, 9], [1, 1, 1])] := by
  have h1 : pipelineRun 3 0 0 2 [9, 9, 9, 7] [1, 1, 1, 1, 1, 1] = .error "reshape" := rfl
  refine ⟨h1, fun h => ?_⟩
  rw [h1] at h
  exact Except.noConfusion h

/-- Claim C1 amended: only a read of ZERO bytes is treated as normal
end-of-input: on sources made of whole frames the pipeline never errors,
stops at the first exhausted side, and every emitted frame is full (no
partial frame); a non-empty read shorter than one frame instead raises a
reshape error (see the counterexample). -/
theorem pipeline_whole_frames_clean_stop (bc nFrames : ℕ) (hbc : 1 ≤ bc)
    (L R : List (List ℕ)) (hL : ∀ f ∈ L, f.length = bc) (hR : ∀ f ∈ R, f.length = bc) :
    ∃ out, pipelineRun bc 0 0 nFrames L.flatten R.flatten = .ok out ∧
      out.length = min nFrames (min L.length R.length) ∧
      ∀ p ∈ out, p.1.length = bc ∧ p.2.length = bc := by
  refine ⟨(L.zip R).take nFrames, streamLoop_flatten bc hbc nFrames L R hL hR, ?_, ?_⟩
  · simp [List.length_take, List.length_zip]
  · intro p hp
    have hp2 := List.of_mem_zip (List.mem_of_mem_take hp)
    exact ⟨hL p.1 hp2.1, hR p.2 hp2.2⟩

theorem pipeline_whole_frames_clean_stop_witness :
    1 ≤ 1 ∧ (∀ f ∈ [[1], [2]], List.length f = 1) ∧ (∀ f ∈ [[3]], List.length f = 1) ∧
      ∃ out, pipelineRun 1 0 0 3 [[1], [2]].flatten [[3]].flatten = .ok out ∧
        out.length = min 3 (min [[1], [2]].length [[3]].length) ∧
        ∀ p ∈ out, p.1.length = 1 ∧ p.2.length = 1 :=
  ⟨by decide, by decide, by decide,
    pipeline_whole_frames_clean_stop 1 3 (by decide) [[1], [2]] [[3]]
      (by decide) (by decide)⟩
